import Mathlib

/-!
Verification of the gossamer consensus and state core against its
natural-language specification.

Shallow embedding of three modules:
- the GRANDPA vote validator (`validateVoteMessage`, `checkForEquivocation`,
  `validateVote` from the grandpa package);
- the BABE epoch state (`GetEpochForBlock`, `FinalizeBABENextEpochData`,
  `findFinalizedHeaderForEpoch` from the state package);
- the trie database layer (`WriteDirty`, `writeDirty`, `LoadFromProof`,
  `loadProof` from lib/trie/database.go).

External collaborators (the key-value store, ed25519 signatures, SCALE
encoding, blake2 hashing, the block-state ancestry queries) are modelled as
oracle parameters: opaque function fields quantified over in the theorems.
Hashes, peer ids, authority ids and signatures are modelled as natural
numbers; byte strings as lists of naturals; uint64 arithmetic is carried out
modulo `U64` where the source relies on wrap-around.
-/

/-- 2^64, the modulus of Go uint64 arithmetic. -/
def U64 : Nat := 18446744073709551616

/-- Association-list lookup, the model of a Go map read. -/
def alookup {α β : Type} [DecidableEq α] : List (α × β) → α → Option β
  | [], _ => none
  | (k', v) :: rest, k => if k' = k then some v else alookup rest k

/-- Association-list key removal, the model of Go `delete(m, k)`. -/
def aerase {α β : Type} [DecidableEq α] : List (α × β) → α → List (α × β)
  | [], _ => []
  | (k', v) :: rest, k => if k' = k then aerase rest k else (k', v) :: aerase rest k

/-- Association-list insert-or-overwrite, the model of a Go map write. -/
def ainsert {α β : Type} [DecidableEq α] (l : List (α × β)) (k : α) (v : β) :
    List (α × β) :=
  aerase l k ++ [(k, v)]

/- ----------------------------------------------------------------------
GRANDPA vote validator (grandpa package, dot/network collaborators).
---------------------------------------------------------------------- -/

/-- GRANDPA vote subround; `prevote` and `primaryProposal` share the prevote
maps, `precommit` uses the precommit maps. -/
inductive Subround where
  | prevote
  | precommit
  | primaryProposal
deriving DecidableEq

/-- A GRANDPA vote: block hash and block number. -/
structure Vote where
  hash : Nat
  number : Nat
deriving DecidableEq

/-- Constructor `NewVote` from the grandpa package. -/
def NewVote (hash number : Nat) : Vote := ⟨hash, number⟩

/-- The signed payload inside a `VoteMessage`. -/
structure SignedMessage where
  stage : Subround
  blockHash : Nat
  number : Nat
  signature : Nat
  authorityID : Nat
deriving DecidableEq

/-- A network-level GRANDPA vote message. -/
structure VoteMessage where
  round : Nat
  setID : Nat
  message : SignedMessage
deriving DecidableEq

/-- A stored signed vote (`SignedVote` in the source). -/
structure SignedVote where
  vote : Vote
  signature : Nat
  authorityID : Nat
deriving DecidableEq

/-- A voter of the current authority set (`types.GrandpaVoter`). -/
structure Voter where
  key : Nat
  id : Nat
deriving DecidableEq

/-- Errors surfaced by the vote validator. -/
inductive GrandpaError where
  | invalidSignature
  | setIDMismatch
  | roundMismatch (got expected : Nat)
  | voterNotFound
  | voteFromSelf
  | blockDoesNotExist
  | descendantNotFound
  | endNodeNotFound
  | startNodeNotFound
  | voteBlockMismatch
  | equivocation
deriving DecidableEq

/-- A block header; `hash` stands for the blake2b digest of its encoding,
`digest` is used by the epoch-state section. -/
structure Header where
  hash : Nat
  number : Nat
deriving DecidableEq

/-- Commit message announcing finality of a block in a round
(wire format in the spec: header reference, round, justification). -/
structure CommitMessage where
  round : Nat
  vote : Vote
deriving DecidableEq

/-- Modelled from the spec: `newCommitMessage` (grandpa package, not under
src/) builds a `CommitMessage` announcing finality of the given finalised
header at the given round. -/
def newCommitMessage (header : Header) (round : Nat) : CommitMessage :=
  ⟨round, NewVote header.hash header.number⟩

/-- The grandpa service's view of the block state (dot/state collaborator,
specified at its interface): header existence, ancestry, and the finalised
header for a (round, set id) pair. Calls may fail, e.g. with the blocktree
not-found errors. -/
structure GBlockState where
  hasHeader : Nat → Except GrandpaError Bool
  isDescendantOf : Nat → Nat → Except GrandpaError Bool
  getFinalisedHeader : Nat → Nat → Except GrandpaError Header

/-- The voting state of the service: voter set, set id and round. -/
structure GrandpaState where
  voters : List Voter
  setID : Nat
  round : Nat

/-- The GRANDPA service state touched by vote validation. `sigOk` is the
ed25519 oracle: whether the message's signature verifies over the SCALE
encoding of its `FullVote` under the message's authority id. `sendFails`
is the network oracle: whether `network.SendMessage` returns an error. -/
structure Service where
  state : GrandpaState
  publicKeyBytes : Nat
  head : Nat
  prevotes : List (Nat × SignedVote)
  precommits : List (Nat × SignedVote)
  pvEquivocations : List (Nat × List SignedVote)
  pcEquivocations : List (Nat × List SignedVote)
  tracker : List (Nat × VoteMessage)
  blockState : GBlockState
  sigOk : VoteMessage → Bool
  sendFails : Bool

/-- Modelled from the spec: `pubkeyToVoter` resolves an authority id to a
voter of the current set, failing when it is not a member. -/
def pubkeyToVoter (st : GrandpaState) (pk : Nat) : Option Voter :=
  st.voters.find? (fun v => v.key = pk)

/-- Modelled from the spec: `loadVote` reads the stored vote of an authority
from the stage's map (prevote and primary-proposal share the prevote map). -/
def loadVote (s : Service) (key : Nat) (stage : Subround) : Option SignedVote :=
  match stage with
  | .prevote | .primaryProposal => alookup s.prevotes key
  | .precommit => alookup s.precommits key

/-- The stage's equivocation map. -/
def eqMapOf (s : Service) (stage : Subround) : List (Nat × List SignedVote) :=
  match stage with
  | .prevote | .primaryProposal => s.pvEquivocations
  | .precommit => s.pcEquivocations

/-- Replace the stage's equivocation map. -/
def setEqMap (s : Service) (stage : Subround) (m : List (Nat × List SignedVote)) :
    Service :=
  match stage with
  | .prevote | .primaryProposal => { s with pvEquivocations := m }
  | .precommit => { s with pcEquivocations := m }

/-- Modelled from the spec: `deleteVote` removes an authority's entry from the
stage's vote map. -/
def deleteVote (s : Service) (key : Nat) (stage : Subround) : Service :=
  match stage with
  | .prevote | .primaryProposal => { s with prevotes := aerase s.prevotes key }
  | .precommit => { s with precommits := aerase s.precommits key }

/-- The final `Store` of a validated vote into the stage's map
(lines 231-236 of the source file). -/
def storeVote (s : Service) (key : Nat) (sv : SignedVote) (stage : Subround) :
    Service :=
  match stage with
  | .prevote | .primaryProposal => { s with prevotes := ainsert s.prevotes key sv }
  | .precommit => { s with precommits := ainsert s.precommits key sv }

/-- `checkForEquivocation` from the source: returns whether the vote
equivocates and the updated service. If the voter already has equivocation
entries, append; otherwise if a prior vote with a different block hash is
stored, move both votes into the equivocation map and delete the stored
vote; otherwise no equivocation. -/
def checkForEquivocation (s : Service) (voter : Voter) (vote : SignedVote)
    (stage : Subround) : Bool × Service :=
  let v := voter.key
  let eq := eqMapOf s stage
  match alookup eq v with
  | some existing => (true, setEqMap s stage (ainsert eq v (existing ++ [vote])))
  | none =>
    match loadVote s v stage with
    | none => (false, s)
    | some existingVote =>
      if existingVote.vote.hash ≠ vote.vote.hash then
        (true, deleteVote (setEqMap s stage (ainsert eq v [existingVote, vote])) v stage)
      else (false, s)

/-- `validateVote` from the source: the voted block must exist and be a
descendant of the current head. -/
def validateVote (s : Service) (v : Vote) : Except GrandpaError Unit :=
  match s.blockState.hasHeader v.hash with
  | .error e => .error e
  | .ok has =>
    if has = false then .error .blockDoesNotExist
    else
      match s.blockState.isDescendantOf s.head v.hash with
      | .error e => .error e
      | .ok isDescendant =>
        if isDescendant = false then .error .voteBlockMismatch
        else .ok ()

/-- The `errors.Is` chain of lines 210-213: errors that defer the message to
the tracker. -/
def isTrackableError : GrandpaError → Bool
  | .blockDoesNotExist | .descendantNotFound | .endNodeNotFound | .startNodeNotFound => true
  | _ => false

/-- The lower bound of accepted rounds, computed with uint64 wrap-around
exactly as in the source: `round - 1` with an explicit reset to 0 when the
subtraction overflowed below zero. -/
def minRoundAccepted (round : Nat) : Nat :=
  let m0 := (round + (U64 - 1)) % U64
  if m0 > round then 0 else m0

/-- The upper bound of accepted rounds, `round + 1` in uint64 arithmetic. -/
def maxRoundAccepted (round : Nat) : Nat := (round + 1) % U64

/-- The outcome of `validateVoteMessage`: the returned vote and error, the
updated service state, and the commit messages handed to the network. -/
structure ValidateResult where
  vote : Option Vote
  err : Option GrandpaError
  svc : Service
  sent : List (Nat × CommitMessage)

/-- `validateVoteMessage` from the source. The ed25519 public-key decode of
the 32-byte authority id cannot fail on well-typed input and is omitted;
signature verification is the `sigOk` oracle. -/
def validateVoteMessage (s : Service) (sender : Nat) (m : VoteMessage) :
    ValidateResult :=
  if s.sigOk m = false then ⟨none, some .invalidSignature, s, []⟩
  else if m.setID ≠ s.state.setID then ⟨none, some .setIDMismatch, s, []⟩
  else if m.round < minRoundAccepted s.state.round ∨ m.round > maxRoundAccepted s.state.round then
    -- discard the message: nil vote, nil error
    ⟨none, none, s, []⟩
  else if m.round < s.state.round then
    match s.blockState.getFinalisedHeader m.round m.setID with
    | .error e => ⟨none, some e, s, []⟩
    | .ok header =>
      let cm := newCommitMessage header m.round
      -- a network send failure is only logged and does not change the outcome
      if s.sendFails then ⟨none, some (.roundMismatch m.round s.state.round), s, [(sender, cm)]⟩
      else ⟨none, some (.roundMismatch m.round s.state.round), s, [(sender, cm)]⟩
  else if m.round > s.state.round then
    ⟨none, some (.roundMismatch m.round s.state.round),
      { s with tracker := s.tracker ++ [(sender, m)] }, []⟩
  else
    match pubkeyToVoter s.state m.message.authorityID with
    | none => ⟨none, some .voterNotFound, s, []⟩
    | some voter =>
      let vote := NewVote m.message.blockHash m.message.number
      if m.message.authorityID = s.publicKeyBytes then
        ⟨none, some .voteFromSelf, s, []⟩
      else
        match validateVote s vote with
        | .error e =>
          let s' := if isTrackableError e then { s with tracker := s.tracker ++ [(sender, m)] } else s
          ⟨none, some e, s', []⟩
        | .ok _ =>
          let just : SignedVote := ⟨vote, m.message.signature, m.message.authorityID⟩
          match checkForEquivocation s voter just m.message.stage with
          | (true, s') => ⟨none, some .equivocation, s', []⟩
          | (false, s') => ⟨some vote, none, storeVote s' m.message.authorityID just m.message.stage, []⟩

/- ----------------------------------------------------------------------
BABE epoch state (state package, EpochState).
---------------------------------------------------------------------- -/

/-- A decoded BABE pre-digest variant, carrying the slot number used by
`GetEpochForBlock`. -/
inductive BabePreDigest where
  | primary (slotNumber : Nat)
  | secondaryVRF (slotNumber : Nat)
  | secondaryPlain (slotNumber : Nat)
deriving DecidableEq

/-- The slot number of a decoded BABE pre-digest, as extracted by the
switch over the three variants in `GetEpochForBlock`. -/
def BabePreDigest.slotNumber : BabePreDigest → Nat
  | .primary s => s
  | .secondaryVRF s => s
  | .secondaryPlain s => s

/-- A typed header digest item: a pre-runtime digest carrying a BABE
pre-digest payload (`none` models a payload that fails to decode), or any
other digest item kind. -/
inductive DigestItem where
  | preRuntime (data : Option BabePreDigest)
  | otherDigest (tag : Nat)
deriving DecidableEq

/-- A header as seen by the epoch state: its ordered digest items. -/
structure BabeHeader where
  digest : List DigestItem
deriving DecidableEq

/-- Errors of the epoch-state operations modelled here. -/
inductive EpochErr where
  | headerIsNil
  | noPreRuntimeDigest
  | babeDecodeFailed
  | epochNotInMemory
  | hashNotPersisted
deriving DecidableEq

/-- The Go error strings of the epoch-state errors. -/
def EpochErr.message : EpochErr → String
  | .headerIsNil => "header is nil"
  | .noPreRuntimeDigest => "header does not contain pre-runtime digest"
  | .babeDecodeFailed => "failed to decode babe header"
  | .epochNotInMemory => "epoch not found in memory map"
  | .hashNotPersisted => "hash with next epoch not found in database"

/-- Modelled from the spec: `types.DecodeBabePreDigest` (dot/types, not under
src/) decodes the pre-runtime digest payload into one of the three BABE
pre-digest variants, failing on a malformed payload. The raw bytes are
modelled as an already-parsed optional variant. -/
def DecodeBabePreDigest : Option BabePreDigest → Except EpochErr BabePreDigest
  | some d => .ok d
  | none => .error .babeDecodeFailed

/-- Epoch data persisted for an epoch; the authority/randomness payload is
opaque to the operations modelled here. -/
structure EpochData where
  raw : Nat
deriving DecidableEq

/-- A pending next-epoch announcement held in memory. -/
structure NextEpochData where
  raw : Nat
deriving DecidableEq

/-- Modelled from the spec: `types.NextEpochData.ToEpochData` (dot/types, not
under src/) repacks the announced payload into persistable epoch data. -/
def NextEpochData.ToEpochData (d : NextEpochData) : EpochData := ⟨d.raw⟩

/-- The epoch state: the persisted per-epoch data table (the `epochinfo`
table of the database, modelled decoded), the `firstslot` and `epochlength`
scalars, the in-memory pending `nextEpochData` map, and the block-state
collaborator's `HasHeaderInDatabase` query (dot/state, specified at its
interface). -/
structure EpochState where
  epochDataDB : List (Nat × EpochData)
  firstSlot : Nat
  epochLength : Nat
  nextEpochData : List (Nat × List (Nat × NextEpochData))
  hasHeaderInDatabase : Nat → Bool

/-- The digest scan of `GetEpochForBlock`: find the first pre-runtime digest
item, decode it, extract the slot number and derive the epoch. -/
def epochForBlockDigest (epochLength firstSlot : Nat) :
    List DigestItem → Except EpochErr Nat
  | [] => .error .noPreRuntimeDigest
  | .preRuntime data :: _ =>
    match DecodeBabePreDigest data with
    | .error e => .error e
    | .ok digest =>
      let slotNumber := digest.slotNumber
      if slotNumber < firstSlot then .ok 0
      else .ok ((slotNumber - firstSlot) / epochLength)
  | .otherDigest _ :: rest => epochForBlockDigest epochLength firstSlot rest

/-- `GetEpochForBlock` from the source: nil-header check, then the digest
scan with the stored first slot and epoch length. -/
def GetEpochForBlock (s : EpochState) (header : Option BabeHeader) :
    Except EpochErr Nat :=
  match header with
  | none => .error .headerIsNil
  | some h => epochForBlockDigest s.epochLength s.firstSlot h.digest

/-- `getEpochDataFromDatabase` from the source; `none` models the
`chaindb.ErrKeyNotFound` outcome, which the modelled callers swallow. -/
def getEpochDataFromDatabase (s : EpochState) (epoch : Nat) : Option EpochData :=
  alookup s.epochDataDB epoch

/-- `SetEpochData` from the source: persist the (scale-encoded) epoch data
under the epoch's key. -/
def SetEpochData (s : EpochState) (epoch : Nat) (info : EpochData) : EpochState :=
  { s with epochDataDB := ainsert s.epochDataDB epoch info }

/-- The hash scan inside `findFinalizedHeaderForEpoch`: return the first
in-memory entry whose announcing block hash is persisted in the header
database, or the hash-not-persisted error. -/
def findPersistedHash {T : Type} (hasHeaderInDatabase : Nat → Bool) :
    List (Nat × T) → Except EpochErr T
  | [] => .error .hashNotPersisted
  | (hash, inMemory) :: rest =>
    if hasHeaderInDatabase hash then .ok inMemory
    else findPersistedHash hasHeaderInDatabase rest

/-- `findFinalizedHeaderForEpoch` from the source, generic over the pending
payload type exactly as the Go generic is; the epoch state's block-state
collaborator is passed as its `HasHeaderInDatabase` query. -/
def findFinalizedHeaderForEpoch {T : Type}
    (nextEpochMap : List (Nat × List (Nat × T)))
    (hasHeaderInDatabase : Nat → Bool) (epoch : Nat) : Except EpochErr T :=
  match alookup nextEpochMap epoch with
  | none => .error .epochNotInMemory
  | some hashes => findPersistedHash hasHeaderInDatabase hashes

/-- `FinalizeBABENextEpochData` from the source: compute the finalized
block's epoch, target the next epoch; no-op when its epoch data is already
persisted; otherwise select a pending entry announced on the finalized
chain, persist it, and drop all pending entries of epochs up to and
including the next epoch. Error wrapping with `fmt.Errorf` preserves the
wrapped sentinel for `errors.Is`, so errors propagate as themselves. -/
def FinalizeBABENextEpochData (s : EpochState) (finalizedHeader : BabeHeader) :
    Except EpochErr EpochState :=
  match GetEpochForBlock s (some finalizedHeader) with
  | .error e => .error e
  | .ok finalizedBlockEpoch =>
    let nextEpoch := finalizedBlockEpoch + 1
    match getEpochDataFromDatabase s nextEpoch with
    | some _ => .ok s
    | none =>
      match findFinalizedHeaderForEpoch s.nextEpochData s.hasHeaderInDatabase nextEpoch with
      | .error e => .error e
      | .ok finalizedNextEpochData =>
        let ed := finalizedNextEpochData.ToEpochData
        let s2 := SetEpochData s nextEpoch ed
        .ok { s2 with
                nextEpochData := s2.nextEpochData.filter (fun p => decide (nextEpoch < p.1)) }

/-- Observation function for the claims: the payload of the first
pre-runtime digest item of a digest, if any. -/
def firstPreRuntime : List DigestItem → Option (Option BabePreDigest)
  | [] => none
  | .preRuntime d :: _ => some d
  | .otherDigest _ :: rest => firstPreRuntime rest

/- ----------------------------------------------------------------------
Trie database layer (lib/trie/database.go).
---------------------------------------------------------------------- -/

/-- An in-memory trie node: a leaf or a branch with up to 16 optional
children. Each node carries its dirty flag and its cached hash and cached
encoding (`hashDigest` and `encoding` in the node package). -/
inductive TNode where
  | leaf (pkey : List Nat) (value : List Nat) (dirty : Bool)
      (hash : List Nat) (encoding : List Nat)
  | branch (pkey : List Nat) (value : Option (List Nat)) (children : List (Option TNode))
      (dirty : Bool) (hash : List Nat) (encoding : List Nat)

/-- The node's dirty flag (`IsDirty`). -/
def TNode.isDirty : TNode → Bool
  | .leaf _ _ d _ _ => d
  | .branch _ _ _ d _ _ => d

/-- The node's cached hash (`GetHash`). -/
def TNode.getHash : TNode → List Nat
  | .leaf _ _ _ h _ => h
  | .branch _ _ _ _ h _ => h

/-- Set the node's dirty flag (`SetDirty`). -/
def TNode.setDirty : TNode → Bool → TNode
  | .leaf pk v _ h e, d => .leaf pk v d h e
  | .branch pk v cs _ h e, d => .branch pk v cs d h e

/-- Set the node's cached encoding and hash (`SetEncodingAndHash`). -/
def TNode.setEncodingAndHash : TNode → List Nat → List Nat → TNode
  | .leaf pk v d _ _, enc, h => .leaf pk v d h enc
  | .branch pk v cs d _ _, enc, h => .branch pk v cs d h enc

/-- Whether an optional node is absent or has its dirty flag clear, i.e. is
skipped by the dirty-node traversal. -/
def topClean : Option TNode → Bool
  | none => true
  | some nd => !nd.isDirty

/-- Errors of the trie database layer. `encodeFailed` stands for a failure
of the node encoder. -/
inductive TrieErr where
  | encodeFailed
deriving DecidableEq

/-- The external node codec of the internal trie/node package (not under
src/), as an oracle: `encodeAndHash n isRoot` returns the canonical encoding
and hash of a node (`EncodeAndHash`), and `decode` decodes raw bytes into a
node (`node.Decode`), either possibly failing. -/
structure TrieEnv where
  encodeAndHash : TNode → Bool → Except TrieErr (List Nat × List Nat)
  decode : List Nat → Except TrieErr TNode

/-- A database write batch (`chaindb.Batch`): the ordered puts accumulated
since creation or the last reset. -/
structure Batch where
  puts : List (List Nat × List Nat)
deriving DecidableEq

/-- `Batch.Put`: record a key/value write in the batch. -/
def Batch.put (b : Batch) (k v : List Nat) : Batch := ⟨b.puts ++ [(k, v)]⟩

/-- The backing key-value database. -/
structure TrieDB where
  entries : List (List Nat × List Nat)
deriving DecidableEq

/-- `Batch.Flush`: apply all accumulated puts to the database atomically. -/
def Batch.flush (b : Batch) (db : TrieDB) : TrieDB :=
  ⟨b.puts.foldl (fun es p => ainsert es p.1 p.2) db.entries⟩

/-- A trie: its root node and its child tries. A child trie is represented
by its root node (child tries of the chain are single-level, so their own
child-trie lists are empty). -/
structure Trie where
  root : Option TNode
  childTries : List (Option TNode)

/-- `NewEmptyTrie`: nil root, no child tries. -/
def NewEmptyTrie : Trie := ⟨none, []⟩

/-- Result of the recursive `writeDirty` on one node: the batch, the
threaded child-trie roots, the updated node and the error, reflecting the
in-place mutations performed before an early error return. -/
structure WRes where
  batch : Batch
  ct : List (Option TNode)
  node : Option TNode
  err : Option TrieErr

/-- Result of the children loop of `writeDirty`. -/
structure ChRes where
  batch : Batch
  ct : List (Option TNode)
  children : List (Option TNode)
  err : Option TrieErr

/-- Result of the child-tries loop of `writeDirty`. -/
structure TRes where
  batch : Batch
  children : List (Option TNode)
  err : Option TrieErr

mutual

/-- The recursive `writeDirty` from the source on one node: skip nil or
clean nodes; encode-and-hash the node (`isRoot` models the `n == t.root`
pointer comparison); put hash/encoding into the batch; for a leaf clear the
dirty flag; for a branch recurse into the children, then (when `useCT` is
set, i.e. in the receiver trie's own walk) rewrite the receiver's child
tries, then clear the branch's dirty flag. Child-trie walks run with
`useCT = false` since child tries have no child tries of their own. -/
def writeDirtyNode (env : TrieEnv) (useCT : Bool) (b : Batch) (ct : List (Option TNode))
    (n : Option TNode) (isRoot : Bool) : WRes :=
  match n with
  | none => ⟨b, ct, none, none⟩
  | some nd =>
    if nd.isDirty = false then ⟨b, ct, some nd, none⟩
    else
      match env.encodeAndHash nd isRoot with
      | .error e => ⟨b, ct, some nd, some e⟩
      | .ok (encoding, hash) =>
        let b2 := b.put hash encoding
        match nd with
        | .leaf pk v _ hh ee => ⟨b2, ct, some (.leaf pk v false hh ee), none⟩
        | .branch pk v cs _ hh ee =>
          let rc := writeDirtyChildren env useCT b2 ct cs
          match rc.err with
          | some e => ⟨rc.batch, rc.ct, some (.branch pk v rc.children true hh ee), some e⟩
          | none =>
            if useCT then
              let rt := writeDirtyCTs env rc.batch rc.ct
              match rt.err with
              | some e => ⟨rt.batch, rt.children, some (.branch pk v rc.children true hh ee), some e⟩
              | none => ⟨rt.batch, rt.children, some (.branch pk v rc.children false hh ee), none⟩
            else
              ⟨rc.batch, rc.ct, some (.branch pk v rc.children false hh ee), none⟩
  termination_by ((if useCT then 2 else 0), sizeOf n)

/-- The children loop of `writeDirty`: skip nil children, recurse into the
others in order, aborting on the first error (remaining children are left
untouched, as after an early `return err`). -/
def writeDirtyChildren (env : TrieEnv) (useCT : Bool) (b : Batch) (ct : List (Option TNode))
    (cs : List (Option TNode)) : ChRes :=
  match cs with
  | [] => ⟨b, ct, [], none⟩
  | none :: rest =>
    let r := writeDirtyChildren env useCT b ct rest
    ⟨r.batch, r.ct, none :: r.children, r.err⟩
  | some cn :: rest =>
    let r1 := writeDirtyNode env useCT b ct (some cn) false
    match r1.err with
    | some e => ⟨r1.batch, r1.ct, r1.node :: rest, some e⟩
    | none =>
      let r2 := writeDirtyChildren env useCT r1.batch r1.ct rest
      ⟨r2.batch, r2.ct, r1.node :: r2.children, r2.err⟩
  termination_by ((if useCT then 2 else 0), sizeOf cs)

/-- The child-tries loop of `writeDirty`: each child trie's root is walked
as the root of its own trie, aborting on the first error. -/
def writeDirtyCTs (env : TrieEnv) (b : Batch) (cts : List (Option TNode)) : TRes :=
  match cts with
  | [] => ⟨b, [], none⟩
  | c :: rest =>
    let r := writeDirtyNode env false b [] c true
    match r.err with
    | some e => ⟨r.batch, r.node :: rest, some e⟩
    | none =>
      let r2 := writeDirtyCTs env r.batch rest
      ⟨r2.batch, r.node :: r2.children, r2.err⟩
  termination_by (1, sizeOf cts)

end

/-- Outcome of `WriteDirty`: the returned error, the database and the trie
afterwards. -/
structure WDResult where
  err : Option TrieErr
  db : TrieDB
  trie : Trie

/-- `WriteDirty` from the source: walk the dirty nodes into a fresh batch;
on success flush the batch to the database; on error reset the batch so no
partial writes reach the database. -/
def WriteDirty (env : TrieEnv) (t : Trie) (db : TrieDB) : WDResult :=
  let batch : Batch := ⟨[]⟩
  let r := writeDirtyNode env true batch t.childTries t.root true
  match r.err with
  | some e => ⟨some e, db, ⟨r.node, r.ct⟩⟩
  | none => ⟨none, r.batch.flush db, ⟨r.node, r.ct⟩⟩

/- Relation between a node before and after a successful dirty-node
traversal. -/
mutual

/-- A clean node is left untouched together with its whole subtree; a
visited dirty leaf has its flag cleared; a visited dirty branch has its
flag cleared and its children related pointwise. -/
inductive CleanedN : TNode → TNode → Prop where
  | skip (n : TNode) : n.isDirty = false → CleanedN n n
  | leafW (pk v hh ee) : CleanedN (.leaf pk v true hh ee) (.leaf pk v false hh ee)
  | branchW (pk v cs cs' hh ee) : CleanedL cs cs' →
      CleanedN (.branch pk v cs true hh ee) (.branch pk v cs' false hh ee)

/-- Pointwise lift of `CleanedN` to children lists. -/
inductive CleanedL : List (Option TNode) → List (Option TNode) → Prop where
  | nil : CleanedL [] []
  | consNone (r r') : CleanedL r r' → CleanedL (none :: r) (none :: r')
  | consSome (a b r r') : CleanedN a b → CleanedL r r' →
      CleanedL (some a :: r) (some b :: r')

end

/-- Lift of `CleanedN` to optional nodes. -/
def CleanedON : Option TNode → Option TNode → Prop
  | none, none => True
  | some a, some b => CleanedN a b
  | _, _ => False

/-- Relation between the child-trie roots before and after a walk: they are
untouched (no dirty branch was visited) or pointwise cleaned. -/
def CleanedCTs (a b : List (Option TNode)) : Prop := b = a ∨ CleanedL a b

/-- Errors and outcomes of `LoadFromProof`. `panicNilNode` models the Go
runtime panic of calling a method on a nil `Node` interface value;
`fuelExhausted` models non-termination of the recursive attach step on a
cyclic proof (the Go recursion does not terminate there either). -/
inductive LoadProofErr where
  | emptyProof
  | decodeNode (i : Nat)
  | encodeHash (i : Nat)
  | panicNilNode
  | fuelExhausted
deriving DecidableEq

/-- The decode-and-index loop of `LoadFromProof`: decode each proof entry,
clear its dirty flag, cache the raw encoding with a nil hash, compute its
hash via the codec, index it by hash, and remember it as root when its hash
equals the target root hash. -/
def loadFromProofLoop (env : TrieEnv) (rootHash : List Nat) :
    Nat → List (List Nat) → List (List Nat × TNode) → Option TNode →
    Except LoadProofErr (List (List Nat × TNode) × Option TNode)
  | _, [], m, root => .ok (m, root)
  | i, rawNode :: rest, m, root =>
    match env.decode rawNode with
    | .error _ => .error (.decodeNode i)
    | .ok decodedNode =>
      let decodedNode := (decodedNode.setDirty false).setEncodingAndHash rawNode []
      match env.encodeAndHash decodedNode false with
      | .error _ => .error (.encodeHash i)
      | .ok (_, hash) =>
        let m := ainsert m hash decodedNode
        let root := if hash = rootHash then some decodedNode else root
        loadFromProofLoop env rootHash (i + 1) rest m root

mutual

/-- The recursive `loadProof` from the source: called on a nil node it
dereferences the nil interface (runtime panic); on a non-branch it returns;
on a branch it replaces every child whose hash is indexed in the proof map
by the indexed node and recurses into it. The fuel bounds the recursion,
which in the source is unbounded on cyclic proofs. -/
def loadProof (m : List (List Nat × TNode)) :
    Nat → Option TNode → Except LoadProofErr (Option TNode)
  | 0, _ => .error .fuelExhausted
  | _ + 1, none => .error .panicNilNode
  | fuel + 1, some nd =>
    match nd with
    | .leaf pk v d hh ee => .ok (some (.leaf pk v d hh ee))
    | .branch pk v cs d hh ee =>
      match loadProofChildren m fuel cs with
      | .error e => .error e
      | .ok cs' => .ok (some (.branch pk v cs' d hh ee))

/-- The children loop of `loadProof`. -/
def loadProofChildren (m : List (List Nat × TNode)) :
    Nat → List (Option TNode) → Except LoadProofErr (List (Option TNode))
  | _, [] => .ok []
  | fuel, none :: rest =>
    match loadProofChildren m fuel rest with
    | .error e => .error e
    | .ok rest' => .ok (none :: rest')
  | fuel, some child :: rest =>
    match alookup m child.getHash with
    | none =>
      match loadProofChildren m fuel rest with
      | .error e => .error e
      | .ok rest' => .ok (some child :: rest')
    | some nodeFromMap =>
      match loadProof m fuel (some nodeFromMap) with
      | .error e => .error e
      | .ok child' =>
        match loadProofChildren m fuel rest with
        | .error e => .error e
        | .ok rest' => .ok (child' :: rest')

end

/-- `LoadFromProof` from the source: reject an empty proof; decode and index
every entry (recording the entry whose hash equals the root hash as the new
root); then run the recursive attach step on the root. -/
def LoadFromProof (env : TrieEnv) (t : Trie) (proofEncodedNodes : List (List Nat))
    (rootHash : List Nat) : Except LoadProofErr Trie :=
  if proofEncodedNodes.length = 0 then .error .emptyProof
  else
    match loadFromProofLoop env rootHash 0 proofEncodedNodes [] t.root with
    | .error e => .error e
    | .ok (m, root) =>
      match loadProof m (m.length + 1) root with
      | .error e => .error e
      | .ok root' => .ok { t with root := root' }

/- ----------------------------------------------------------------------
Concrete instances used by the witness theorems.
---------------------------------------------------------------------- -/

/-- A block state in which every block is known and a descendant of the
head, and every (round, set id) pair has a finalised header. -/
def wBlockState : GBlockState :=
  ⟨fun _ => .ok true, fun _ _ => .ok true, fun _ _ => .ok ⟨77, 9⟩⟩

/-- A block state in which no block is known. -/
def wBlockStateMissing : GBlockState :=
  ⟨fun _ => .ok false, fun _ _ => .ok true, fun _ _ => .ok ⟨77, 9⟩⟩

/-- A concrete service at round 5, set id 1, with voters 10 and 11 and our
own key 10, empty maps, an accepting signature oracle and a working
network. -/
def wService : Service :=
  { state := ⟨[⟨10, 0⟩, ⟨11, 1⟩], 1, 5⟩
    publicKeyBytes := 10
    head := 100
    prevotes := []
    precommits := []
    pvEquivocations := []
    pcEquivocations := []
    tracker := []
    blockState := wBlockState
    sigOk := fun _ => true
    sendFails := false }

/-- A stored prevote of authority 11 for block 200. -/
def wStored : SignedVote := ⟨⟨200, 20⟩, 55, 11⟩

/-- A vote message from authority 11 at round 5, set id 1. -/
def wMsg (stage : Subround) (blockHash : Nat) (round : Nat) : VoteMessage :=
  ⟨round, 1, ⟨stage, blockHash, 20, 66, 11⟩⟩

/-- A concrete epoch state with first slot 1 and epoch length 3, used by
the epoch witnesses. -/
def wEpochState : EpochState := ⟨[], 1, 3, [], fun _ => false⟩

/-- Pending next-epoch payloads for the C2 witness. -/
def wNextA : NextEpochData := ⟨101⟩

/-- The pending payload whose announcing block is on the finalized chain. -/
def wNextB : NextEpochData := ⟨102⟩

/-- An epoch state with two pending entries for epoch 1, announced by
blocks 5 (not persisted) and 6 (persisted). -/
def wFinState : EpochState :=
  ⟨[], 1, 3, [(1, [(5, wNextA), (6, wNextB)])], fun h => h == 6⟩

/-- A finalized header of epoch 0: its pre-runtime digest carries slot 2. -/
def wEpochHeader : BabeHeader := ⟨[.preRuntime (some (.secondaryPlain 2))]⟩

/-- Whether a raw proof entry decodes and encode-hashes successfully after
the dirty-flag clear and encoding cache of the `LoadFromProof` loop. -/
def DecEncOk (env : TrieEnv) (raw : List Nat) : Prop :=
  ∃ n enc h, env.decode raw = .ok n ∧
    env.encodeAndHash ((n.setDirty false).setEncodingAndHash raw []) false = .ok (enc, h)

/-- A codec oracle that decodes [2] with an error and everything else to a
clean leaf, and hashes every node to [7]. -/
def wTrieEnv : TrieEnv :=
  ⟨fun _ _ => .ok ([5], [7]),
   fun raw => if raw = [2] then .error .encodeFailed else .ok (.leaf [1] [2] false [] [])⟩

/-- A codec oracle whose encoder always fails. -/
def wTrieEnvFail : TrieEnv :=
  ⟨fun _ _ => .error .encodeFailed, fun _ => .error .encodeFailed⟩

/-- A trie whose root is a single dirty leaf. -/
def wDirtyTrie : Trie := ⟨some (.leaf [1] [2] true [] []), []⟩

/-- An empty backing database. -/
def wDB : TrieDB := ⟨[]⟩

/- ----------------------------------------------------------------------
Theorems. Association-list laws first, then the claims.
---------------------------------------------------------------------- -/

theorem alookup_aerase_self {α β : Type} [DecidableEq α] (l : List (α × β)) (k : α) :
    alookup (aerase l k) k = none := by
  induction l with
  | nil => rfl
  | cons p rest ih =>
    obtain ⟨k', v⟩ := p
    by_cases h : k' = k
    · simp [aerase, h, ih]
    · simp [aerase, alookup, h, ih]

theorem alookup_append_of_none {α β : Type} [DecidableEq α]
    (l1 l2 : List (α × β)) (k : α) (h : alookup l1 k = none) :
    alookup (l1 ++ l2) k = alookup l2 k := by
  induction l1 with
  | nil => rfl
  | cons p rest ih =>
    obtain ⟨k', v⟩ := p
    by_cases hk : k' = k
    · simp [alookup, hk] at h
    · simp [alookup, hk] at h ⊢
      exact ih h

theorem alookup_ainsert_self {α β : Type} [DecidableEq α]
    (l : List (α × β)) (k : α) (v : β) : alookup (ainsert l k v) k = some v := by
  unfold ainsert
  rw [alookup_append_of_none _ _ _ (alookup_aerase_self l k)]
  simp [alookup]

theorem pubkeyToVoter_key (st : GrandpaState) (pk : Nat) (voter : Voter)
    (h : pubkeyToVoter st pk = some voter) : voter.key = pk := by
  have := List.find?_some h
  simpa using this

theorem minRoundAccepted_eq (R : Nat) (h : R < U64) :
    minRoundAccepted R = R - 1 := by
  simp only [minRoundAccepted, U64] at *
  split <;> omega

theorem maxRoundAccepted_eq (R : Nat) (h : R + 1 < U64) :
    maxRoundAccepted R = R + 1 := by
  simp only [maxRoundAccepted, U64] at *
  omega

/-- C4: with a valid signature and matching set id, a vote message whose
round lies outside the interval [max(0, round-1), round+1] — the lower
bound computed without wrapping below zero — is silently dropped:
`validateVoteMessage` returns a nil vote and a nil error, leaves the
service unchanged, and sends nothing. -/
theorem C4_out_of_range_round_dropped (s : Service) (sender : Nat) (m : VoteMessage)
    (hsig : s.sigOk m = true) (hset : m.setID = s.state.setID)
    (hRU : s.state.round < U64) (hmU : m.round < U64)
    (hout : m.round + 1 < s.state.round ∨ s.state.round + 1 < m.round) :
    validateVoteMessage s sender m = ⟨none, none, s, []⟩ := by
  have hmin := minRoundAccepted_eq s.state.round hRU
  have hdrop : m.round < minRoundAccepted s.state.round ∨
      m.round > maxRoundAccepted s.state.round := by
    rcases hout with h | h
    · left; omega
    · right
      have hb : s.state.round + 1 < U64 := by
        simp only [U64] at *; omega
      rw [maxRoundAccepted_eq s.state.round hb]; omega
  unfold validateVoteMessage
  rw [hsig]
  simp [hset, hdrop]

/-- C4 witness: a concrete out-of-range message (round 9 against state
round 5) is silently dropped. -/
theorem C4_witness :
    validateVoteMessage wService 3 (wMsg .prevote 200 9) = ⟨none, none, wService, []⟩ :=
  C4_out_of_range_round_dropped wService 3 (wMsg .prevote 200 9)
    rfl rfl (by decide) (by decide) (Or.inr (by decide))

/-- C5: for a validly signed vote message with matching set id and round
exactly one less than the service round, `validateVoteMessage` returns the
round-mismatch error and hands exactly one commit message for the finalised
header of (message round, set id) back to the sending peer; a network send
failure (the `sendFails` oracle, which is arbitrary here) only gets logged
and does not change the outcome. -/
theorem C5_lagging_round_commit_reply (s : Service) (sender : Nat) (m : VoteMessage)
    (header : Header)
    (hsig : s.sigOk m = true) (hset : m.setID = s.state.setID)
    (hRU : s.state.round + 1 < U64)
    (hm : m.round + 1 = s.state.round)
    (hfin : s.blockState.getFinalisedHeader m.round m.setID = .ok header) :
    validateVoteMessage s sender m =
      ⟨none, some (.roundMismatch m.round s.state.round), s,
        [(sender, newCommitMessage header m.round)]⟩ := by
  have hb : s.state.round < U64 := by omega
  have hmin := minRoundAccepted_eq s.state.round hb
  have hmax := maxRoundAccepted_eq s.state.round hRU
  have hnd : ¬(m.round < minRoundAccepted s.state.round ∨
      m.round > maxRoundAccepted s.state.round) := by
    rw [hmin, hmax]; omega
  have hlt : m.round < s.state.round := by omega
  rw [hset] at hfin
  unfold validateVoteMessage
  rw [hsig]
  simp [hset, hnd, hlt, hfin]

/-- C5 witness: at state round 5, a set-id-1 precommit for round 4 yields
the round-mismatch error and exactly one commit message for the finalised
header of round 4 sent back to peer 3. -/
theorem C5_witness :
    validateVoteMessage wService 3 (wMsg .precommit 200 4) =
      ⟨none, some (.roundMismatch 4 5), wService,
        [(3, newCommitMessage ⟨77, 9⟩ 4)]⟩ :=
  C5_lagging_round_commit_reply wService 3 (wMsg .precommit 200 4) ⟨77, 9⟩
    rfl rfl (by decide) rfl rfl

/-- C6: a current-round, correctly signed vote from a voter-set authority
other than our own key whose block validation fails with
`ErrBlockDoesNotExist` or one of the three blocktree not-found errors is
added to the tracker and the same error is returned; the prevote and
precommit maps are untouched. -/
theorem C6_unknown_block_deferred_to_tracker (s : Service) (sender : Nat)
    (m : VoteMessage) (voter : Voter) (e : GrandpaError)
    (hsig : s.sigOk m = true) (hset : m.setID = s.state.setID)
    (hround : m.round = s.state.round) (hRU : s.state.round + 1 < U64)
    (hvoter : pubkeyToVoter s.state m.message.authorityID = some voter)
    (hself : m.message.authorityID ≠ s.publicKeyBytes)
    (hvv : validateVote s (NewVote m.message.blockHash m.message.number) = .error e)
    (htr : isTrackableError e = true) :
    validateVoteMessage s sender m =
      ⟨none, some e, { s with tracker := s.tracker ++ [(sender, m)] }, []⟩ := by
  have hb : s.state.round < U64 := by omega
  have hmin := minRoundAccepted_eq s.state.round hb
  have hmax := maxRoundAccepted_eq s.state.round hRU
  have hnd : ¬(m.round < minRoundAccepted s.state.round ∨
      m.round > maxRoundAccepted s.state.round) := by
    rw [hmin, hmax]; omega
  have hnlt : ¬(m.round < s.state.round) := by omega
  have hngt : ¬(m.round > s.state.round) := by omega
  unfold validateVoteMessage
  rw [hsig]
  simp [hset, hnd, hnlt, hngt, hvoter, hself, hvv, htr]

/-- C6 witness: with an empty block database, a current-round prevote of
authority 11 is deferred to the tracker and `ErrBlockDoesNotExist` is
returned. -/
theorem C6_witness :
    validateVoteMessage { wService with blockState := wBlockStateMissing } 3
        (wMsg .prevote 200 5) =
      ⟨none, some .blockDoesNotExist,
        { { wService with blockState := wBlockStateMissing } with
            tracker := [(3, wMsg .prevote 200 5)] }, []⟩ :=
  C6_unknown_block_deferred_to_tracker
    { wService with blockState := wBlockStateMissing } 3 (wMsg .prevote 200 5)
    ⟨11, 1⟩ .blockDoesNotExist rfl rfl rfl (by decide) rfl (by decide) rfl rfl

/-- C1: for a current-round, correctly signed and block-valid vote from a
voter-set authority (other than our own key) that has a stored vote in the
same stage for a different block hash — and, as the source's equivocation
branch requires, no prior equivocation entry, which the code guarantees by
deleting the stored vote when one is created — `validateVoteMessage`
returns `ErrEquivocation`, records both signed votes in the stage's
equivocation map keyed by the authority, and the stage's vote map no
longer contains an entry for that authority. -/
theorem C1_equivocation_detected (s : Service) (sender : Nat) (m : VoteMessage)
    (voter : Voter) (existing : SignedVote)
    (hsig : s.sigOk m = true) (hset : m.setID = s.state.setID)
    (hround : m.round = s.state.round) (hRU : s.state.round + 1 < U64)
    (hvoter : pubkeyToVoter s.state m.message.authorityID = some voter)
    (hself : m.message.authorityID ≠ s.publicKeyBytes)
    (hvv : validateVote s (NewVote m.message.blockHash m.message.number) = .ok ())
    (heq : alookup (eqMapOf s m.message.stage) voter.key = none)
    (hload : loadVote s voter.key m.message.stage = some existing)
    (hdiff : existing.vote.hash ≠ m.message.blockHash) :
    (validateVoteMessage s sender m).vote = none ∧
    (validateVoteMessage s sender m).err = some .equivocation ∧
    alookup (eqMapOf (validateVoteMessage s sender m).svc m.message.stage) voter.key =
      some [existing,
        ⟨NewVote m.message.blockHash m.message.number, m.message.signature,
          m.message.authorityID⟩] ∧
    loadVote (validateVoteMessage s sender m).svc voter.key m.message.stage = none := by
  have hb : s.state.round < U64 := by omega
  have hmin := minRoundAccepted_eq s.state.round hb
  have hmax := maxRoundAccepted_eq s.state.round hRU
  have hnd : ¬(m.round < minRoundAccepted s.state.round ∨
      m.round > maxRoundAccepted s.state.round) := by
    rw [hmin, hmax]; omega
  have hnlt : ¬(m.round < s.state.round) := by omega
  have hngt : ¬(m.round > s.state.round) := by omega
  have hkey := pubkeyToVoter_key s.state m.message.authorityID voter hvoter
  set just : SignedVote :=
    ⟨NewVote m.message.blockHash m.message.number, m.message.signature,
      m.message.authorityID⟩ with hjust
  have hcheck : checkForEquivocation s voter just m.message.stage =
      (true, deleteVote
        (setEqMap s m.message.stage
          (ainsert (eqMapOf s m.message.stage) voter.key [existing, just]))
        voter.key m.message.stage) := by
    simp only [checkForEquivocation]
    rw [heq, hload]
    simp [hjust, NewVote, hdiff]
  have hmain : validateVoteMessage s sender m =
      ⟨none, some .equivocation,
        deleteVote
          (setEqMap s m.message.stage
            (ainsert (eqMapOf s m.message.stage) voter.key [existing, just]))
          voter.key m.message.stage, []⟩ := by
    unfold validateVoteMessage
    rw [hsig]
    simp [hset, hnd, hnlt, hngt, hvoter, hself, hvv, hcheck]
  rw [hmain]
  refine ⟨rfl, rfl, ?_, ?_⟩
  · cases hst : m.message.stage <;>
      simp [hst, eqMapOf, setEqMap, deleteVote, alookup_ainsert_self]
  · cases hst : m.message.stage <;>
      simp [hst, loadVote, setEqMap, deleteVote, alookup_aerase_self]

/-- C1 witness: authority 11 stored a prevote for block 200; its new
current-round prevote for block 300 is rejected as an equivocation, both
signed votes land in the prevote equivocation map, and the prevote map no
longer has an entry for authority 11. -/
theorem C1_witness :
    (validateVoteMessage { wService with prevotes := [(11, wStored)] } 3
        (wMsg .prevote 300 5)).vote = none ∧
    (validateVoteMessage { wService with prevotes := [(11, wStored)] } 3
        (wMsg .prevote 300 5)).err = some .equivocation ∧
    alookup (eqMapOf (validateVoteMessage { wService with prevotes := [(11, wStored)] } 3
        (wMsg .prevote 300 5)).svc .prevote) 11 =
      some [wStored, ⟨NewVote 300 20, 66, 11⟩] ∧
    loadVote (validateVoteMessage { wService with prevotes := [(11, wStored)] } 3
        (wMsg .prevote 300 5)).svc 11 .prevote = none :=
  C1_equivocation_detected { wService with prevotes := [(11, wStored)] } 3
    (wMsg .prevote 300 5) ⟨11, 1⟩ wStored rfl rfl rfl (by decide) rfl (by decide)
    rfl rfl rfl (by decide)

/-- C10: for a current-round, correctly signed and block-valid vote from a
voter-set authority with a stored vote in the same stage for the same
block hash and no prior equivocation entry, the equivocation check returns
false and `validateVoteMessage` overwrites the stage map entry with the
new signed vote and returns the vote with a nil error. -/
theorem C10_repeated_vote_not_equivocation (s : Service) (sender : Nat)
    (m : VoteMessage) (voter : Voter) (existing : SignedVote)
    (hsig : s.sigOk m = true) (hset : m.setID = s.state.setID)
    (hround : m.round = s.state.round) (hRU : s.state.round + 1 < U64)
    (hvoter : pubkeyToVoter s.state m.message.authorityID = some voter)
    (hself : m.message.authorityID ≠ s.publicKeyBytes)
    (hvv : validateVote s (NewVote m.message.blockHash m.message.number) = .ok ())
    (heq : alookup (eqMapOf s m.message.stage) voter.key = none)
    (hload : loadVote s voter.key m.message.stage = some existing)
    (hsame : existing.vote.hash = m.message.blockHash) :
    (checkForEquivocation s voter
      ⟨NewVote m.message.blockHash m.message.number, m.message.signature,
        m.message.authorityID⟩ m.message.stage).1 = false ∧
    (validateVoteMessage s sender m).vote =
      some (NewVote m.message.blockHash m.message.number) ∧
    (validateVoteMessage s sender m).err = none ∧
    loadVote (validateVoteMessage s sender m).svc voter.key m.message.stage =
      some ⟨NewVote m.message.blockHash m.message.number, m.message.signature,
        m.message.authorityID⟩ := by
  have hb : s.state.round < U64 := by omega
  have hmin := minRoundAccepted_eq s.state.round hb
  have hmax := maxRoundAccepted_eq s.state.round hRU
  have hnd : ¬(m.round < minRoundAccepted s.state.round ∨
      m.round > maxRoundAccepted s.state.round) := by
    rw [hmin, hmax]; omega
  have hnlt : ¬(m.round < s.state.round) := by omega
  have hngt : ¬(m.round > s.state.round) := by omega
  have hkey := pubkeyToVoter_key s.state m.message.authorityID voter hvoter
  set just : SignedVote :=
    ⟨NewVote m.message.blockHash m.message.number, m.message.signature,
      m.message.authorityID⟩ with hjust
  have hcheck : checkForEquivocation s voter just m.message.stage = (false, s) := by
    simp only [checkForEquivocation]
    rw [heq, hload]
    simp [hjust, NewVote, hsame]
  have hmain : validateVoteMessage s sender m =
      ⟨some (NewVote m.message.blockHash m.message.number), none,
        storeVote s m.message.authorityID just m.message.stage, []⟩ := by
    unfold validateVoteMessage
    rw [hsig]
    simp [hset, hnd, hnlt, hngt, hvoter, hself, hvv, hcheck]
  refine ⟨by rw [hcheck], ?_, ?_, ?_⟩
  · rw [hmain]
  · rw [hmain]
  · rw [hmain, hkey]
    cases hst : m.message.stage <;>
      simp [hst, loadVote, storeVote, alookup_ainsert_self]

/-- C10 witness: authority 11 stored a prevote for block 200; a repeated
current-round prevote for block 200 is accepted again: no equivocation,
the prevote map entry is overwritten with the new signed vote, and the
vote is returned with a nil error. -/
theorem C10_witness :
    (checkForEquivocation { wService with prevotes := [(11, wStored)] } ⟨11, 1⟩
      ⟨NewVote 200 20, 66, 11⟩ .prevote).1 = false ∧
    (validateVoteMessage { wService with prevotes := [(11, wStored)] } 3
        (wMsg .prevote 200 5)).vote = some (NewVote 200 20) ∧
    (validateVoteMessage { wService with prevotes := [(11, wStored)] } 3
        (wMsg .prevote 200 5)).err = none ∧
    loadVote (validateVoteMessage { wService with prevotes := [(11, wStored)] } 3
        (wMsg .prevote 200 5)).svc 11 .prevote = some ⟨NewVote 200 20, 66, 11⟩ :=
  C10_repeated_vote_not_equivocation { wService with prevotes := [(11, wStored)] } 3
    (wMsg .prevote 200 5) ⟨11, 1⟩ wStored rfl rfl rfl (by decide) rfl (by decide)
    rfl rfl rfl rfl

theorem epochForBlockDigest_spec (L F : Nat) (l : List DigestItem) :
    (firstPreRuntime l = none →
       epochForBlockDigest L F l = .error .noPreRuntimeDigest) ∧
    (∀ b, firstPreRuntime l = some (some b) →
       epochForBlockDigest L F l =
         if b.slotNumber < F then .ok 0 else .ok ((b.slotNumber - F) / L)) := by
  induction l with
  | nil =>
    exact ⟨fun _ => rfl, fun b hb => by simp [firstPreRuntime] at hb⟩
  | cons d rest ih =>
    cases d with
    | preRuntime data =>
      refine ⟨fun hn => by simp [firstPreRuntime] at hn, fun b hb => ?_⟩
      simp only [firstPreRuntime, Option.some.injEq] at hb
      subst hb
      simp only [epochForBlockDigest, DecodeBabePreDigest]
    | otherDigest t =>
      simpa [firstPreRuntime, epochForBlockDigest] using ih

/-- C3: for every non-nil header, `GetEpochForBlock` takes the first
pre-runtime digest item: when there is none it fails with the error whose
message is "header does not contain pre-runtime digest"; when it decodes
to a BABE pre-digest with slot number n, it returns epoch 0 if
n < firstSlot and (n - firstSlot) / epochLength otherwise. -/
theorem C3_get_epoch_for_block (s : EpochState) (h : BabeHeader) :
    (firstPreRuntime h.digest = none →
       GetEpochForBlock s (some h) = .error .noPreRuntimeDigest ∧
       EpochErr.message .noPreRuntimeDigest =
         "header does not contain pre-runtime digest") ∧
    (∀ b, firstPreRuntime h.digest = some (some b) →
       GetEpochForBlock s (some h) =
         if b.slotNumber < s.firstSlot then .ok 0
         else .ok ((b.slotNumber - s.firstSlot) / s.epochLength)) := by
  have hd := epochForBlockDigest_spec s.epochLength s.firstSlot h.digest
  exact ⟨fun hn => ⟨hd.1 hn, rfl⟩, hd.2⟩

/-- C3 witness: a header whose first pre-runtime digest carries slot 10
lands in epoch (10 - 1) / 3 = 3, and a header without a pre-runtime digest
fails with the dedicated error. -/
theorem C3_witness :
    GetEpochForBlock wEpochState
        (some ⟨[.otherDigest 0, .preRuntime (some (.primary 10))]⟩) = .ok 3 ∧
    GetEpochForBlock wEpochState (some ⟨[.otherDigest 0]⟩) =
      .error .noPreRuntimeDigest :=
  ⟨by
    have := (C3_get_epoch_for_block wEpochState
      ⟨[.otherDigest 0, .preRuntime (some (.primary 10))]⟩).2 (.primary 10) rfl
    simpa [wEpochState, BabePreDigest.slotNumber] using this,
   ((C3_get_epoch_for_block wEpochState ⟨[.otherDigest 0]⟩).1 rfl).1⟩

theorem findPersistedHash_ok {T : Type} (f : Nat → Bool) (l : List (Nat × T)) (d : T)
    (h : findPersistedHash f l = .ok d) : ∃ p, p ∈ l ∧ f p.1 = true ∧ p.2 = d := by
  induction l with
  | nil => simp [findPersistedHash] at h
  | cons q rest ih =>
    obtain ⟨hash, v⟩ := q
    by_cases hf : f hash = true
    · simp only [findPersistedHash, hf, if_true, Except.ok.injEq] at h
      exact ⟨(hash, v), by simp, hf, h⟩
    · simp only [findPersistedHash, hf, if_false, Bool.false_eq_true] at h
      obtain ⟨p, hp, h1, h2⟩ := ih h
      exact ⟨p, by simp [hp], h1, h2⟩

theorem findPersistedHash_allFalse {T : Type} (f : Nat → Bool) (l : List (Nat × T))
    (h : ∀ p ∈ l, f p.1 = false) :
    findPersistedHash f l = .error .hashNotPersisted := by
  induction l with
  | nil => rfl
  | cons q rest ih =>
    obtain ⟨hash, v⟩ := q
    have hq : f hash = false := h (hash, v) (by simp)
    simp only [findPersistedHash, hq]
    exact ih (fun p hp => h p (by simp [hp]))

theorem alookup_filter_le {β : Type} (l : List (Nat × β)) (ne e' : Nat) (h : e' ≤ ne) :
    alookup (l.filter (fun p => decide (ne < p.1))) e' = none := by
  induction l with
  | nil => rfl
  | cons q rest ih =>
    obtain ⟨k, v⟩ := q
    by_cases hk : ne < k
    · have hne : ¬(k = e') := by omega
      simp [List.filter, hk, alookup, hne, ih]
    · simp [List.filter, hk, ih]

theorem alookup_filter_gt {β : Type} (l : List (Nat × β)) (ne e' : Nat) (h : ne < e') :
    alookup (l.filter (fun p => decide (ne < p.1))) e' = alookup l e' := by
  induction l with
  | nil => rfl
  | cons q rest ih =>
    obtain ⟨k, v⟩ := q
    by_cases hk : ne < k
    · by_cases hke : k = e'
      · simp [List.filter, hk, alookup, hke, h]
      · simp [List.filter, hk, alookup, hke, ih]
    · have hne : ¬(k = e') := by omega
      simp [List.filter, hk, alookup, hne, ih]

/-- C2: let e be the epoch of the finalized header and e+1 the next epoch.
`FinalizeBABENextEpochData` (1) is a no-op when epoch data for e+1 is
already persisted; (2) fails with `ErrEpochNotInMemory` when no in-memory
entries exist for e+1; (3) fails with the "hash not persisted" error when
no announcing block of the e+1 entries is in the header database; and
(4) otherwise selects an in-memory entry whose announcing block hash is in
the header database, persists that entry's epoch data under e+1, and
deletes every in-memory entry of epochs ≤ e+1 while keeping later
epochs. -/
theorem C2_finalize_next_epoch_data (s : EpochState) (h : BabeHeader) (e : Nat)
    (hGet : GetEpochForBlock s (some h) = .ok e) :
    ((getEpochDataFromDatabase s (e + 1)).isSome →
        FinalizeBABENextEpochData s h = .ok s) ∧
    (getEpochDataFromDatabase s (e + 1) = none →
      alookup s.nextEpochData (e + 1) = none →
        FinalizeBABENextEpochData s h = .error .epochNotInMemory) ∧
    (∀ hashes, getEpochDataFromDatabase s (e + 1) = none →
      alookup s.nextEpochData (e + 1) = some hashes →
      (∀ p ∈ hashes, s.hasHeaderInDatabase p.1 = false) →
        FinalizeBABENextEpochData s h = .error .hashNotPersisted) ∧
    (∀ d, getEpochDataFromDatabase s (e + 1) = none →
      findFinalizedHeaderForEpoch s.nextEpochData s.hasHeaderInDatabase (e + 1) = .ok d →
      (∃ hashes, alookup s.nextEpochData (e + 1) = some hashes ∧
         ∃ p, p ∈ hashes ∧ s.hasHeaderInDatabase p.1 = true ∧ p.2 = d) ∧
      ∃ s', FinalizeBABENextEpochData s h = .ok s' ∧
        getEpochDataFromDatabase s' (e + 1) = some d.ToEpochData ∧
        (∀ e', e' ≤ e + 1 → alookup s'.nextEpochData e' = none) ∧
        (∀ e', e + 1 < e' → alookup s'.nextEpochData e' = alookup s.nextEpochData e')) := by
  refine ⟨?_, ?_, ?_, ?_⟩
  · intro hs
    obtain ⟨d, hdbv⟩ := Option.isSome_iff_exists.mp hs
    simp [FinalizeBABENextEpochData, hGet, hdbv]
  · intro hdb hmem
    simp [FinalizeBABENextEpochData, hGet, hdb, findFinalizedHeaderForEpoch, hmem]
  · intro hashes hdb hmem hfalse
    simp [FinalizeBABENextEpochData, hGet, hdb, findFinalizedHeaderForEpoch, hmem,
      findPersistedHash_allFalse s.hasHeaderInDatabase hashes hfalse]
  · intro d hdb hfind
    obtain ⟨hashes, hmem⟩ : ∃ hashes, alookup s.nextEpochData (e + 1) = some hashes := by
      unfold findFinalizedHeaderForEpoch at hfind
      match hm : alookup s.nextEpochData (e + 1) with
      | none => rw [hm] at hfind; simp at hfind
      | some hs' => exact ⟨hs', rfl⟩
    have hpersist : findPersistedHash s.hasHeaderInDatabase hashes = .ok d := by
      unfold findFinalizedHeaderForEpoch at hfind
      rw [hmem] at hfind
      exact hfind
    refine ⟨⟨hashes, hmem, findPersistedHash_ok _ _ _ hpersist⟩, ?_⟩
    have hmain : FinalizeBABENextEpochData s h =
        .ok { SetEpochData s (e + 1) d.ToEpochData with
                nextEpochData :=
                  (SetEpochData s (e + 1) d.ToEpochData).nextEpochData.filter
                    (fun p => decide (e + 1 < p.1)) } := by
      simp [FinalizeBABENextEpochData, hGet, hdb, hfind]
    refine ⟨_, hmain, ?_, ?_, ?_⟩
    · simp [getEpochDataFromDatabase, SetEpochData, alookup_ainsert_self]
    · intro e' he'
      simpa [SetEpochData] using alookup_filter_le s.nextEpochData (e + 1) e' he'
    · intro e' he'
      simpa [SetEpochData] using alookup_filter_gt s.nextEpochData (e + 1) e' he'

/-- C2 witness: with pending epoch-1 entries announced by blocks 5 (not
persisted) and 6 (persisted) and a finalized header of epoch 0, the
finalization selects the entry of block 6, persists its data under epoch
1, and empties all pending entries of epochs ≤ 1. -/
theorem C2_witness :
    (∃ hashes, alookup wFinState.nextEpochData (0 + 1) = some hashes ∧
       ∃ p, p ∈ hashes ∧ wFinState.hasHeaderInDatabase p.1 = true ∧ p.2 = wNextB) ∧
    ∃ s', FinalizeBABENextEpochData wFinState wEpochHeader = .ok s' ∧
      getEpochDataFromDatabase s' (0 + 1) = some wNextB.ToEpochData ∧
      (∀ e', e' ≤ 0 + 1 → alookup s'.nextEpochData e' = none) ∧
      (∀ e', 0 + 1 < e' → alookup s'.nextEpochData e' = alookup wFinState.nextEpochData e') :=
  (C2_finalize_next_epoch_data wFinState wEpochHeader 0 rfl).2.2.2 wNextB rfl rfl

theorem loadFromProofLoop_decodeErr (env : TrieEnv) (rootHash : List Nat) :
    ∀ (proof : List (List Nat)) (istart : Nat) (m : List (List Nat × TNode))
      (root : Option TNode) (i : Nat) (raw : List Nat),
      proof[i]? = some raw → (∃ e, env.decode raw = .error e) →
      (∀ j rawj, j < i → proof[j]? = some rawj → DecEncOk env rawj) →
      loadFromProofLoop env rootHash istart proof m root =
        .error (.decodeNode (istart + i)) := by
  intro proof
  induction proof with
  | nil => intro istart m root i raw hget; simp at hget
  | cons raw0 rest ih =>
    intro istart m root i raw hget hdec hok
    cases i with
    | zero =>
      simp only [List.getElem?_cons_zero, Option.some.injEq] at hget
      subst hget
      obtain ⟨e, he⟩ := hdec
      simp [loadFromProofLoop, he]
    | succ i' =>
      obtain ⟨n, enc, hh, hdecok, hencok⟩ :=
        hok 0 raw0 (Nat.succ_pos i') (by simp)
      simp only [List.getElem?_cons_succ] at hget
      have hrec := ih (istart + 1) (ainsert m hh ((n.setDirty false).setEncodingAndHash raw0 []))
        (if hh = rootHash then some ((n.setDirty false).setEncodingAndHash raw0 []) else root)
        i' raw hget hdec
        (fun j rawj hj hg => hok (j + 1) rawj (by omega) (by simpa using hg))
      simp only [loadFromProofLoop, hdecok, hencok]
      rw [hrec]
      have harith : istart + 1 + i' = istart + (i' + 1) := by omega
      rw [harith]

/-- C8: `LoadFromProof` returns the `EmptyProof` error on an empty proof
slice, and the `DecodeNode` error naming the failing index when the entry
at that index fails to decode (all earlier entries decoding and hashing
fine); both returns happen before the recursive attach step runs. -/
theorem C8_load_from_proof_errors (env : TrieEnv) (t : Trie) (rootHash : List Nat) :
    (LoadFromProof env t [] rootHash = .error .emptyProof) ∧
    (∀ proof i raw, proof[i]? = some raw → (∃ e, env.decode raw = .error e) →
       (∀ j rawj, j < i → proof[j]? = some rawj → DecEncOk env rawj) →
       LoadFromProof env t proof rootHash = .error (.decodeNode i)) := by
  constructor
  · rfl
  · intro proof i raw hget hdec hok
    have hne : ¬(proof.length = 0) := by
      intro h0
      rw [List.length_eq_zero] at h0
      subst h0
      simp at hget
    unfold LoadFromProof
    rw [if_neg hne,
      loadFromProofLoop_decodeErr env rootHash proof 0 [] t.root i raw hget hdec hok]
    simp

/-- C8 witness: the proof slice [[1], [2]] whose second entry fails to
decode is rejected with the decode error naming index 1, and the empty
slice with the empty-proof error. -/
theorem C8_witness :
    LoadFromProof wTrieEnv NewEmptyTrie [] [9] = .error .emptyProof ∧
    LoadFromProof wTrieEnv NewEmptyTrie [[1], [2]] [9] = .error (.decodeNode 1) :=
  ⟨(C8_load_from_proof_errors wTrieEnv NewEmptyTrie [9]).1,
   (C8_load_from_proof_errors wTrieEnv NewEmptyTrie [9]).2 [[1], [2]] 1 [2] rfl
    ⟨.encodeFailed, rfl⟩
    (by
      intro j rawj hj hg
      have hj0 : j = 0 := by omega
      subst hj0
      simp only [List.getElem?_cons_zero, Option.some.injEq] at hg
      subst hg
      exact ⟨.leaf [1] [2] false [] [], [5], [7], rfl, rfl⟩)⟩

/-- C9: `LoadFromProof` is not total: on a freshly created empty trie and a
non-empty proof whose single entry decodes fine but hashes to [7], not the
requested root hash [9], the root is never assigned and the recursive
attach step dereferences the nil root — the modelled runtime panic —
instead of returning a root-not-found error. -/
theorem C9_load_from_proof_nil_root_panic :
    (∃ n, wTrieEnv.decode [1] = .ok n) ∧
    (∀ n isRoot, wTrieEnv.encodeAndHash n isRoot ≠ .ok ([5], [9])) ∧
    LoadFromProof wTrieEnv NewEmptyTrie [[1]] [9] = .error .panicNilNode := by
  refine ⟨⟨.leaf [1] [2] false [] [], rfl⟩, ?_, ?_⟩
  · intro n isRoot h
    simp [wTrieEnv] at h
  · have hlp : loadProof [([7], TNode.leaf [1] [2] false [] [1])] 2 none =
        .error .panicNilNode := by
      rw [loadProof.eq_def]
    simp only [LoadFromProof]
    rw [if_neg (by simp)]
    rw [show loadFromProofLoop wTrieEnv [9] 0 [[1]] [] NewEmptyTrie.root =
        .ok ([([7], TNode.leaf [1] [2] false [] [1])], none) from rfl]
    simp [hlp]

theorem writeDirtyNode_clean (env : TrieEnv) (u : Bool) (b : Batch)
    (ct : List (Option TNode)) (n : Option TNode) (isRoot : Bool)
    (h : topClean n = true) :
    writeDirtyNode env u b ct n isRoot = ⟨b, ct, n, none⟩ := by
  cases n with
  | none => rw [writeDirtyNode]
  | some nd =>
    have hd : nd.isDirty = false := by simpa [topClean] using h
    rw [writeDirtyNode]
    simp [hd]

theorem cleanedN_isDirty (a b : TNode) (h : CleanedN a b) : b.isDirty = false := by
  cases h with
  | skip n hn => exact hn
  | leafW pk v hh ee => rfl
  | branchW pk v cs cs' hh ee hcs => rfl

theorem cleanedON_topClean (a b : Option TNode) (h : CleanedON a b) :
    topClean b = true := by
  match a, b with
  | none, none => rfl
  | some x, some y =>
    simp [topClean, cleanedN_isDirty x y h]
  | none, some y => exact absurd h (by simp [CleanedON])
  | some x, none => exact absurd h (by simp [CleanedON])

theorem cleanedL_inv_nil {ys : List (Option TNode)} (h : CleanedL [] ys) :
    ys = [] :=
  match h with
  | .nil => rfl

theorem cleanedL_inv_none {r ys : List (Option TNode)} (h : CleanedL (none :: r) ys) :
    ∃ r', ys = none :: r' ∧ CleanedL r r' :=
  match h with
  | .consNone _ r' hr => ⟨r', rfl, hr⟩

theorem cleanedL_inv_some {a : TNode} {r ys : List (Option TNode)}
    (h : CleanedL (some a :: r) ys) :
    ∃ b r', ys = some b :: r' ∧ CleanedN a b ∧ CleanedL r r' :=
  match h with
  | .consSome _ b _ r' h1 h2 => ⟨b, r', rfl, h1, h2⟩

theorem cleanedL_topClean : ∀ xs ys, CleanedL xs ys → ∀ x ∈ ys, topClean x = true := by
  intro xs
  induction xs with
  | nil =>
    intro ys h x hx
    rw [cleanedL_inv_nil h] at hx
    simp at hx
  | cons c rest ih =>
    intro ys h x hx
    cases c with
    | none =>
      obtain ⟨r', hys, hr⟩ := cleanedL_inv_none h
      subst hys
      rcases List.mem_cons.mp hx with hx0 | hx1
      · subst hx0; rfl
      · exact ih r' hr x hx1
    | some a =>
      obtain ⟨b, r', hys, hN, hL⟩ := cleanedL_inv_some h
      subst hys
      rcases List.mem_cons.mp hx with hx0 | hx1
      · subst hx0; simp [topClean, cleanedN_isDirty a b hN]
      · exact ih r' hL x hx1

theorem cleanedN_of_clean (a b : TNode) (h : CleanedN a b) (hc : a.isDirty = false) :
    b = a := by
  cases h with
  | skip n hn => rfl
  | leafW pk v hh ee => simp [TNode.isDirty] at hc
  | branchW pk v cs cs' hh ee hcs => simp [TNode.isDirty] at hc

theorem cleanedL_of_topClean : ∀ xs ys, CleanedL xs ys →
    (∀ x ∈ xs, topClean x = true) → ys = xs := by
  intro xs
  induction xs with
  | nil => intro ys h _; exact cleanedL_inv_nil h
  | cons c rest ih =>
    intro ys h hc
    cases c with
    | none =>
      obtain ⟨r', hys, hr⟩ := cleanedL_inv_none h
      subst hys
      rw [ih r' hr (fun x hx => hc x (by simp [hx]))]
    | some a =>
      obtain ⟨b, r', hys, hN, hL⟩ := cleanedL_inv_some h
      subst hys
      have ha : a.isDirty = false := by
        simpa [topClean] using hc (some a) (by simp)
      rw [cleanedN_of_clean a b hN ha,
        ih r' hL (fun x hx => hc x (by simp [hx]))]

theorem cleanedCTs_comp (x y z : List (Option TNode))
    (h1 : CleanedCTs x y) (h2 : CleanedL y z) : CleanedCTs x z := by
  rcases h1 with h1 | h1
  · subst h1; exact Or.inr h2
  · rw [cleanedL_of_topClean y z h2 (cleanedL_topClean x y h1)]
    exact Or.inr h1

theorem cleanedCTs_trans (x y z : List (Option TNode))
    (h1 : CleanedCTs x y) (h2 : CleanedCTs y z) : CleanedCTs x z := by
  rcases h2 with h2 | h2
  · subst h2; exact h1
  · exact cleanedCTs_comp x y z h1 h2

theorem writeDirtyCTs_id (env : TrieEnv) :
    ∀ (cts : List (Option TNode)) (b : Batch),
      (∀ x ∈ cts, topClean x = true) → writeDirtyCTs env b cts = ⟨b, cts, none⟩ := by
  intro cts
  induction cts with
  | nil => intro b _; rw [writeDirtyCTs]
  | cons c rest ih =>
    intro b h
    rw [writeDirtyCTs,
      writeDirtyNode_clean env false b [] c true (h c (by simp))]
    simp [ih b (fun x hx => h x (by simp [hx]))]

theorem writeDirtyFalse_cleaned (env : TrieEnv) : ∀ (k : Nat),
    (∀ (b : Batch) (ct : List (Option TNode)) (n : Option TNode) (isRoot : Bool),
      sizeOf n ≤ k → (writeDirtyNode env false b ct n isRoot).err = none →
      CleanedON n (writeDirtyNode env false b ct n isRoot).node ∧
      (writeDirtyNode env false b ct n isRoot).ct = ct) ∧
    (∀ (b : Batch) (ct : List (Option TNode)) (cs : List (Option TNode)),
      sizeOf cs ≤ k → (writeDirtyChildren env false b ct cs).err = none →
      CleanedL cs (writeDirtyChildren env false b ct cs).children ∧
      (writeDirtyChildren env false b ct cs).ct = ct) := by
  intro k
  induction k using Nat.strong_induction_on with
  | _ k IH =>
  constructor
  · intro b ct n isRoot hsz
    cases n with
    | none =>
      rw [writeDirtyNode]
      exact fun _ => ⟨trivial, rfl⟩
    | some nd =>
      by_cases hd : nd.isDirty = false
      · rw [writeDirtyNode_clean env false b ct (some nd) isRoot (by simp [topClean, hd])]
        exact fun _ => ⟨CleanedN.skip nd hd, rfl⟩
      · cases nd with
        | leaf pk v d hh ee =>
          have hdt : d = true := by
            revert hd; cases d <;> simp [TNode.isDirty]
          subst hdt
          cases henc : env.encodeAndHash (.leaf pk v true hh ee) isRoot with
          | error e =>
            have hstep : writeDirtyNode env false b ct (some (.leaf pk v true hh ee)) isRoot =
                ⟨b, ct, some (.leaf pk v true hh ee), some e⟩ := by
              rw [writeDirtyNode]; simp [TNode.isDirty, henc]
            rw [hstep]
            intro hcontra; simp at hcontra
          | ok p =>
            obtain ⟨enc, hsh⟩ := p
            have hstep : writeDirtyNode env false b ct (some (.leaf pk v true hh ee)) isRoot =
                ⟨b.put hsh enc, ct, some (.leaf pk v false hh ee), none⟩ := by
              rw [writeDirtyNode]; simp [TNode.isDirty, henc]
            rw [hstep]
            exact fun _ => ⟨CleanedN.leafW pk v hh ee, rfl⟩
        | branch pk v cs d hh ee =>
          have hdt : d = true := by
            revert hd; cases d <;> simp [TNode.isDirty]
          subst hdt
          cases henc : env.encodeAndHash (.branch pk v cs true hh ee) isRoot with
          | error e =>
            have hstep : writeDirtyNode env false b ct (some (.branch pk v cs true hh ee)) isRoot =
                ⟨b, ct, some (.branch pk v cs true hh ee), some e⟩ := by
              rw [writeDirtyNode]; simp [TNode.isDirty, henc]
            rw [hstep]
            intro hcontra; simp at hcontra
          | ok p =>
            obtain ⟨enc, hsh⟩ := p
            have hszc : sizeOf cs < k := by
              have h1 : sizeOf cs < sizeOf (some (TNode.branch pk v cs true hh ee)) := by
                simp
                try omega
              omega
            have hch := (IH (sizeOf cs) hszc).2 (b.put hsh enc) ct cs le_rfl
            cases herr : (writeDirtyChildren env false (b.put hsh enc) ct cs).err with
            | some e =>
              have hstep : writeDirtyNode env false b ct (some (.branch pk v cs true hh ee)) isRoot =
                  ⟨(writeDirtyChildren env false (b.put hsh enc) ct cs).batch,
                   (writeDirtyChildren env false (b.put hsh enc) ct cs).ct,
                   some (.branch pk v (writeDirtyChildren env false (b.put hsh enc) ct cs).children true hh ee),
                   some e⟩ := by
                rw [writeDirtyNode]; simp [TNode.isDirty, henc, herr]
              rw [hstep]
              intro hcontra; simp at hcontra
            | none =>
              obtain ⟨hcl, hct⟩ := hch herr
              have hstep : writeDirtyNode env false b ct (some (.branch pk v cs true hh ee)) isRoot =
                  ⟨(writeDirtyChildren env false (b.put hsh enc) ct cs).batch,
                   (writeDirtyChildren env false (b.put hsh enc) ct cs).ct,
                   some (.branch pk v (writeDirtyChildren env false (b.put hsh enc) ct cs).children false hh ee),
                   none⟩ := by
                rw [writeDirtyNode]; simp [TNode.isDirty, henc, herr]
              rw [hstep]
              exact fun _ => ⟨CleanedN.branchW pk v cs _ hh ee hcl, hct⟩
  · intro b ct cs hsz
    cases cs with
    | nil =>
      rw [writeDirtyChildren]
      exact fun _ => ⟨CleanedL.nil, rfl⟩
    | cons c rest =>
      have hszr : sizeOf rest < k := by
        have h1 : sizeOf rest < sizeOf (c :: rest) := by
          simp
          try omega
        omega
      cases c with
      | none =>
        have hstep : writeDirtyChildren env false b ct (none :: rest) =
            ⟨(writeDirtyChildren env false b ct rest).batch,
             (writeDirtyChildren env false b ct rest).ct,
             none :: (writeDirtyChildren env false b ct rest).children,
             (writeDirtyChildren env false b ct rest).err⟩ := by
          rw [writeDirtyChildren]
        rw [hstep]
        intro herr
        obtain ⟨h1, h2⟩ := (IH (sizeOf rest) hszr).2 b ct rest le_rfl herr
        exact ⟨CleanedL.consNone _ _ h1, h2⟩
      | some cn =>
        have hszn : sizeOf (some cn) < k := by
          have h1 : sizeOf (some cn) < sizeOf (some cn :: rest) := by
            simp
            try omega
          omega
        have hn := (IH (sizeOf (some cn)) hszn).1 b ct (some cn) false le_rfl
        cases herr1 : (writeDirtyNode env false b ct (some cn) false).err with
        | some e =>
          have hstep : writeDirtyChildren env false b ct (some cn :: rest) =
              ⟨(writeDirtyNode env false b ct (some cn) false).batch,
               (writeDirtyNode env false b ct (some cn) false).ct,
               (writeDirtyNode env false b ct (some cn) false).node :: rest,
               some e⟩ := by
            rw [writeDirtyChildren]; simp [herr1]
          rw [hstep]
          intro hcontra; simp at hcontra
        | none =>
          obtain ⟨hon, hct1⟩ := hn herr1
          have hr := (IH (sizeOf rest) hszr).2
            (writeDirtyNode env false b ct (some cn) false).batch
            (writeDirtyNode env false b ct (some cn) false).ct rest le_rfl
          cases herr2 : (writeDirtyChildren env false
              (writeDirtyNode env false b ct (some cn) false).batch
              (writeDirtyNode env false b ct (some cn) false).ct rest).err with
          | some e =>
            have hstep : writeDirtyChildren env false b ct (some cn :: rest) =
                ⟨(writeDirtyChildren env false
                    (writeDirtyNode env false b ct (some cn) false).batch
                    (writeDirtyNode env false b ct (some cn) false).ct rest).batch,
                 (writeDirtyChildren env false
                    (writeDirtyNode env false b ct (some cn) false).batch
                    (writeDirtyNode env false b ct (some cn) false).ct rest).ct,
                 (writeDirtyNode env false b ct (some cn) false).node ::
                   (writeDirtyChildren env false
                    (writeDirtyNode env false b ct (some cn) false).batch
                    (writeDirtyNode env false b ct (some cn) false).ct rest).children,
                 some e⟩ := by
              rw [writeDirtyChildren]; simp [herr1, herr2]
            rw [hstep]
            intro hcontra; simp at hcontra
          | none =>
            obtain ⟨hcl, hct2⟩ := hr herr2
            have hstep : writeDirtyChildren env false b ct (some cn :: rest) =
                ⟨(writeDirtyChildren env false
                    (writeDirtyNode env false b ct (some cn) false).batch
                    (writeDirtyNode env false b ct (some cn) false).ct rest).batch,
                 (writeDirtyChildren env false
                    (writeDirtyNode env false b ct (some cn) false).batch
                    (writeDirtyNode env false b ct (some cn) false).ct rest).ct,
                 (writeDirtyNode env false b ct (some cn) false).node ::
                   (writeDirtyChildren env false
                    (writeDirtyNode env false b ct (some cn) false).batch
                    (writeDirtyNode env false b ct (some cn) false).ct rest).children,
                 none⟩ := by
              rw [writeDirtyChildren]; simp [herr1, herr2]
            rw [hstep]
            intro _
            cases hnode : (writeDirtyNode env false b ct (some cn) false).node with
            | none => rw [hnode] at hon; exact absurd hon (by simp [CleanedON])
            | some bnode =>
              rw [hnode] at hon
              exact ⟨CleanedL.consSome cn bnode rest _ hon hcl, by rw [hct2, hct1]⟩

theorem writeDirtyNodeFalse_cleaned (env : TrieEnv) (b : Batch)
    (ct : List (Option TNode)) (n : Option TNode) (isRoot : Bool)
    (h : (writeDirtyNode env false b ct n isRoot).err = none) :
    CleanedON n (writeDirtyNode env false b ct n isRoot).node :=
  ((writeDirtyFalse_cleaned env (sizeOf n)).1 b ct n isRoot le_rfl h).1

theorem writeDirtyCTs_cleaned (env : TrieEnv) :
    ∀ (cts : List (Option TNode)) (b : Batch),
      (writeDirtyCTs env b cts).err = none →
      CleanedL cts (writeDirtyCTs env b cts).children := by
  intro cts
  induction cts with
  | nil =>
    intro b _
    rw [writeDirtyCTs]
    exact CleanedL.nil
  | cons c rest ih =>
    intro b
    cases herr1 : (writeDirtyNode env false b [] c true).err with
    | some e =>
      have hstep : writeDirtyCTs env b (c :: rest) =
          ⟨(writeDirtyNode env false b [] c true).batch,
           (writeDirtyNode env false b [] c true).node :: rest, some e⟩ := by
        rw [writeDirtyCTs]; simp [herr1]
      rw [hstep]
      intro hcontra; simp at hcontra
    | none =>
      have hon := writeDirtyNodeFalse_cleaned env b [] c true herr1
      cases herr2 : (writeDirtyCTs env (writeDirtyNode env false b [] c true).batch rest).err with
      | some e =>
        have hstep : writeDirtyCTs env b (c :: rest) =
            ⟨(writeDirtyCTs env (writeDirtyNode env false b [] c true).batch rest).batch,
             (writeDirtyNode env false b [] c true).node ::
               (writeDirtyCTs env (writeDirtyNode env false b [] c true).batch rest).children,
             some e⟩ := by
          rw [writeDirtyCTs]; simp [herr1, herr2]
        rw [hstep]
        intro hcontra; simp at hcontra
      | none =>
        have hcl := ih (writeDirtyNode env false b [] c true).batch herr2
        have hstep : writeDirtyCTs env b (c :: rest) =
            ⟨(writeDirtyCTs env (writeDirtyNode env false b [] c true).batch rest).batch,
             (writeDirtyNode env false b [] c true).node ::
               (writeDirtyCTs env (writeDirtyNode env false b [] c true).batch rest).children,
             none⟩ := by
          rw [writeDirtyCTs]; simp [herr1, herr2]
        rw [hstep]
        intro _
        cases c with
        | none =>
          cases hnode : (writeDirtyNode env false b [] none true).node with
          | none =>
            exact CleanedL.consNone _ _ hcl
          | some bnode =>
            rw [hnode] at hon
            exact absurd hon (by simp [CleanedON])
        | some cn =>
          cases hnode : (writeDirtyNode env false b [] (some cn) true).node with
          | none =>
            rw [hnode] at hon
            exact absurd hon (by simp [CleanedON])
          | some bnode =>
            rw [hnode] at hon
            exact CleanedL.consSome cn bnode rest _ hon hcl

theorem writeDirtyTrue_cleaned (env : TrieEnv) : ∀ (k : Nat),
    (∀ (b : Batch) (ct : List (Option TNode)) (n : Option TNode) (isRoot : Bool),
      sizeOf n ≤ k → (writeDirtyNode env true b ct n isRoot).err = none →
      CleanedON n (writeDirtyNode env true b ct n isRoot).node ∧
      CleanedCTs ct (writeDirtyNode env true b ct n isRoot).ct) ∧
    (∀ (b : Batch) (ct : List (Option TNode)) (cs : List (Option TNode)),
      sizeOf cs ≤ k → (writeDirtyChildren env true b ct cs).err = none →
      CleanedL cs (writeDirtyChildren env true b ct cs).children ∧
      CleanedCTs ct (writeDirtyChildren env true b ct cs).ct) := by
  intro k
  induction k using Nat.strong_induction_on with
  | _ k IH =>
  constructor
  · intro b ct n isRoot hsz
    cases n with
    | none =>
      rw [writeDirtyNode]
      exact fun _ => ⟨trivial, Or.inl rfl⟩
    | some nd =>
      by_cases hd : nd.isDirty = false
      · rw [writeDirtyNode_clean env true b ct (some nd) isRoot (by simp [topClean, hd])]
        exact fun _ => ⟨CleanedN.skip nd hd, Or.inl rfl⟩
      · cases nd with
        | leaf pk v d hh ee =>
          have hdt : d = true := by
            revert hd; cases d <;> simp [TNode.isDirty]
          subst hdt
          cases henc : env.encodeAndHash (.leaf pk v true hh ee) isRoot with
          | error e =>
            have hstep : writeDirtyNode env true b ct (some (.leaf pk v true hh ee)) isRoot =
                ⟨b, ct, some (.leaf pk v true hh ee), some e⟩ := by
              rw [writeDirtyNode]; simp [TNode.isDirty, henc]
            rw [hstep]
            intro hcontra; simp at hcontra
          | ok p =>
            obtain ⟨enc, hsh⟩ := p
            have hstep : writeDirtyNode env true b ct (some (.leaf pk v true hh ee)) isRoot =
                ⟨b.put hsh enc, ct, some (.leaf pk v false hh ee), none⟩ := by
              rw [writeDirtyNode]; simp [TNode.isDirty, henc]
            rw [hstep]
            exact fun _ => ⟨CleanedN.leafW pk v hh ee, Or.inl rfl⟩
        | branch pk v cs d hh ee =>
          have hdt : d = true := by
            revert hd; cases d <;> simp [TNode.isDirty]
          subst hdt
          cases henc : env.encodeAndHash (.branch pk v cs true hh ee) isRoot with
          | error e =>
            have hstep : writeDirtyNode env true b ct (some (.branch pk v cs true hh ee)) isRoot =
                ⟨b, ct, some (.branch pk v cs true hh ee), some e⟩ := by
              rw [writeDirtyNode]; simp [TNode.isDirty, henc]
            rw [hstep]
            intro hcontra; simp at hcontra
          | ok p =>
            obtain ⟨enc, hsh⟩ := p
            have hszc : sizeOf cs < k := by
              have h1 : sizeOf cs < sizeOf (some (TNode.branch pk v cs true hh ee)) := by
                simp
                try omega
              omega
            have hch := (IH (sizeOf cs) hszc).2 (b.put hsh enc) ct cs le_rfl
            cases hcerr : (writeDirtyChildren env true (b.put hsh enc) ct cs).err with
            | some e =>
              have hstep : writeDirtyNode env true b ct (some (.branch pk v cs true hh ee)) isRoot =
                  ⟨(writeDirtyChildren env true (b.put hsh enc) ct cs).batch,
                   (writeDirtyChildren env true (b.put hsh enc) ct cs).ct,
                   some (.branch pk v (writeDirtyChildren env true (b.put hsh enc) ct cs).children true hh ee),
                   some e⟩ := by
                rw [writeDirtyNode]; simp [TNode.isDirty, henc, hcerr]
              rw [hstep]
              intro hcontra; simp at hcontra
            | none =>
              obtain ⟨hcl, hcct⟩ := hch hcerr
              cases hterr : (writeDirtyCTs env
                  (writeDirtyChildren env true (b.put hsh enc) ct cs).batch
                  (writeDirtyChildren env true (b.put hsh enc) ct cs).ct).err with
              | some e =>
                have hstep : writeDirtyNode env true b ct (some (.branch pk v cs true hh ee)) isRoot =
                    ⟨(writeDirtyCTs env
                        (writeDirtyChildren env true (b.put hsh enc) ct cs).batch
                        (writeDirtyChildren env true (b.put hsh enc) ct cs).ct).batch,
                     (writeDirtyCTs env
                        (writeDirtyChildren env true (b.put hsh enc) ct cs).batch
                        (writeDirtyChildren env true (b.put hsh enc) ct cs).ct).children,
                     some (.branch pk v (writeDirtyChildren env true (b.put hsh enc) ct cs).children true hh ee),
                     some e⟩ := by
                  rw [writeDirtyNode]; simp [TNode.isDirty, henc, hcerr, hterr]
                rw [hstep]
                intro hcontra; simp at hcontra
              | none =>
                have hctl := writeDirtyCTs_cleaned env
                  (writeDirtyChildren env true (b.put hsh enc) ct cs).ct
                  (writeDirtyChildren env true (b.put hsh enc) ct cs).batch hterr
                have hstep : writeDirtyNode env true b ct (some (.branch pk v cs true hh ee)) isRoot =
                    ⟨(writeDirtyCTs env
                        (writeDirtyChildren env true (b.put hsh enc) ct cs).batch
                        (writeDirtyChildren env true (b.put hsh enc) ct cs).ct).batch,
                     (writeDirtyCTs env
                        (writeDirtyChildren env true (b.put hsh enc) ct cs).batch
                        (writeDirtyChildren env true (b.put hsh enc) ct cs).ct).children,
                     some (.branch pk v (writeDirtyChildren env true (b.put hsh enc) ct cs).children false hh ee),
                     none⟩ := by
                  rw [writeDirtyNode]; simp [TNode.isDirty, henc, hcerr, hterr]
                rw [hstep]
                exact fun _ => ⟨CleanedN.branchW pk v cs _ hh ee hcl,
                  cleanedCTs_comp ct _ _ hcct hctl⟩
  · intro b ct cs hsz
    cases cs with
    | nil =>
      rw [writeDirtyChildren]
      exact fun _ => ⟨CleanedL.nil, Or.inl rfl⟩
    | cons c rest =>
      have hszr : sizeOf rest < k := by
        have h1 : sizeOf rest < sizeOf (c :: rest) := by
          simp
          try omega
        omega
      cases c with
      | none =>
        have hstep : writeDirtyChildren env true b ct (none :: rest) =
            ⟨(writeDirtyChildren env true b ct rest).batch,
             (writeDirtyChildren env true b ct rest).ct,
             none :: (writeDirtyChildren env true b ct rest).children,
             (writeDirtyChildren env true b ct rest).err⟩ := by
          rw [writeDirtyChildren]
        rw [hstep]
        intro herr
        obtain ⟨h1, h2⟩ := (IH (sizeOf rest) hszr).2 b ct rest le_rfl herr
        exact ⟨CleanedL.consNone _ _ h1, h2⟩
      | some cn =>
        have hszn : sizeOf (some cn) < k := by
          have h1 : sizeOf (some cn) < sizeOf (some cn :: rest) := by
            simp
            try omega
          omega
        have hn := (IH (sizeOf (some cn)) hszn).1 b ct (some cn) false le_rfl
        cases herr1 : (writeDirtyNode env true b ct (some cn) false).err with
        | some e =>
          have hstep : writeDirtyChildren env true b ct (some cn :: rest) =
              ⟨(writeDirtyNode env true b ct (some cn) false).batch,
               (writeDirtyNode env true b ct (some cn) false).ct,
               (writeDirtyNode env true b ct (some cn) false).node :: rest,
               some e⟩ := by
            rw [writeDirtyChildren]; simp [herr1]
          rw [hstep]
          intro hcontra; simp at hcontra
        | none =>
          obtain ⟨hon, hct1⟩ := hn herr1
          have hr := (IH (sizeOf rest) hszr).2
            (writeDirtyNode env true b ct (some cn) false).batch
            (writeDirtyNode env true b ct (some cn) false).ct rest le_rfl
          cases herr2 : (writeDirtyChildren env true
              (writeDirtyNode env true b ct (some cn) false).batch
              (writeDirtyNode env true b ct (some cn) false).ct rest).err with
          | some e =>
            have hstep : writeDirtyChildren env true b ct (some cn :: rest) =
                ⟨(writeDirtyChildren env true
                    (writeDirtyNode env true b ct (some cn) false).batch
                    (writeDirtyNode env true b ct (some cn) false).ct rest).batch,
                 (writeDirtyChildren env true
                    (writeDirtyNode env true b ct (some cn) false).batch
                    (writeDirtyNode env true b ct (some cn) false).ct rest).ct,
                 (writeDirtyNode env true b ct (some cn) false).node ::
                   (writeDirtyChildren env true
                    (writeDirtyNode env true b ct (some cn) false).batch
                    (writeDirtyNode env true b ct (some cn) false).ct rest).children,
                 some e⟩ := by
              rw [writeDirtyChildren]; simp [herr1, herr2]
            rw [hstep]
            intro hcontra; simp at hcontra
          | none =>
            obtain ⟨hcl, hct2⟩ := hr herr2
            have hstep : writeDirtyChildren env true b ct (some cn :: rest) =
                ⟨(writeDirtyChildren env true
                    (writeDirtyNode env true b ct (some cn) false).batch
                    (writeDirtyNode env true b ct (some cn) false).ct rest).batch,
                 (writeDirtyChildren env true
                    (writeDirtyNode env true b ct (some cn) false).batch
                    (writeDirtyNode env true b ct (some cn) false).ct rest).ct,
                 (writeDirtyNode env true b ct (some cn) false).node ::
                   (writeDirtyChildren env true
                    (writeDirtyNode env true b ct (some cn) false).batch
                    (writeDirtyNode env true b ct (some cn) false).ct rest).children,
                 none⟩ := by
              rw [writeDirtyChildren]; simp [herr1, herr2]
            rw [hstep]
            intro _
            cases hnode : (writeDirtyNode env true b ct (some cn) false).node with
            | none =>
              rw [hnode] at hon
              exact absurd hon (by simp [CleanedON])
            | some bnode =>
              rw [hnode] at hon
              exact ⟨CleanedL.consSome cn bnode rest _ hon hcl,
                cleanedCTs_trans ct _ _ hct1 hct2⟩

/-- C7: `WriteDirty` (1) visits only dirty nodes — the traversal returns a
clean node, and hence its whole subtree, untouched without writing
anything; (2) when the traversal and the batch flush succeed, every
visited dirty node is marked clean afterwards (`CleanedON`/`CleanedCTs`:
clean nodes untouched, visited dirty nodes cleared, child tries likewise);
and (3) when the traversal errors, the batch is reset and never flushed,
so the database is unchanged. -/
theorem C7_write_dirty (env : TrieEnv) (t : Trie) (db : TrieDB) :
    (∀ (u : Bool) (b : Batch) (ct : List (Option TNode)) (n : Option TNode)
      (isRoot : Bool), topClean n = true →
      writeDirtyNode env u b ct n isRoot = ⟨b, ct, n, none⟩) ∧
    ((WriteDirty env t db).err = none →
      CleanedON t.root (WriteDirty env t db).trie.root ∧
      CleanedCTs t.childTries (WriteDirty env t db).trie.childTries) ∧
    (∀ e, (WriteDirty env t db).err = some e → (WriteDirty env t db).db = db) := by
  refine ⟨fun u b ct n isRoot h => writeDirtyNode_clean env u b ct n isRoot h, ?_, ?_⟩
  · cases hrerr : (writeDirtyNode env true ⟨[]⟩ t.childTries t.root true).err with
    | some e =>
      have hstep : WriteDirty env t db =
          ⟨some e, db,
           ⟨(writeDirtyNode env true ⟨[]⟩ t.childTries t.root true).node,
            (writeDirtyNode env true ⟨[]⟩ t.childTries t.root true).ct⟩⟩ := by
        unfold WriteDirty; simp [hrerr]
      rw [hstep]
      intro hcontra; simp at hcontra
    | none =>
      have hres := (writeDirtyTrue_cleaned env (sizeOf t.root)).1 ⟨[]⟩ t.childTries
        t.root true le_rfl hrerr
      have hstep : WriteDirty env t db =
          ⟨none, (writeDirtyNode env true ⟨[]⟩ t.childTries t.root true).batch.flush db,
           ⟨(writeDirtyNode env true ⟨[]⟩ t.childTries t.root true).node,
            (writeDirtyNode env true ⟨[]⟩ t.childTries t.root true).ct⟩⟩ := by
        unfold WriteDirty; simp [hrerr]
      rw [hstep]
      exact fun _ => hres
  · intro e
    cases hrerr : (writeDirtyNode env true ⟨[]⟩ t.childTries t.root true).err with
    | some e' =>
      have hstep : WriteDirty env t db =
          ⟨some e', db,
           ⟨(writeDirtyNode env true ⟨[]⟩ t.childTries t.root true).node,
            (writeDirtyNode env true ⟨[]⟩ t.childTries t.root true).ct⟩⟩ := by
        unfold WriteDirty; simp [hrerr]
      rw [hstep]
      intro _; rfl
    | none =>
      have hstep : WriteDirty env t db =
          ⟨none, (writeDirtyNode env true ⟨[]⟩ t.childTries t.root true).batch.flush db,
           ⟨(writeDirtyNode env true ⟨[]⟩ t.childTries t.root true).node,
            (writeDirtyNode env true ⟨[]⟩ t.childTries t.root true).ct⟩⟩ := by
        unfold WriteDirty; simp [hrerr]
      rw [hstep]
      intro hcontra; simp at hcontra

/-- C7 witness: a clean leaf is returned untouched with nothing written; a
trie whose root is a dirty leaf is written successfully and comes back
cleaned; with an always-failing encoder the write errors and the database
is unchanged. -/
theorem C7_witness :
    writeDirtyNode wTrieEnv true ⟨[]⟩ [] (some (.leaf [1] [2] false [] [])) true =
      ⟨⟨[]⟩, [], some (.leaf [1] [2] false [] []), none⟩ ∧
    (CleanedON wDirtyTrie.root (WriteDirty wTrieEnv wDirtyTrie wDB).trie.root ∧
     CleanedCTs wDirtyTrie.childTries (WriteDirty wTrieEnv wDirtyTrie wDB).trie.childTries) ∧
    (WriteDirty wTrieEnvFail wDirtyTrie wDB).db = wDB :=
  ⟨(C7_write_dirty wTrieEnv wDirtyTrie wDB).1 true ⟨[]⟩ []
      (some (.leaf [1] [2] false [] [])) true rfl,
   (C7_write_dirty wTrieEnv wDirtyTrie wDB).2.1
     (by
       have h1 : writeDirtyNode wTrieEnv true ⟨[]⟩ []
           (some (TNode.leaf [1] [2] true [] [])) true =
           ⟨⟨[([7], [5])]⟩, [], some (.leaf [1] [2] false [] []), none⟩ := by
         rw [writeDirtyNode]; rfl
       show (WriteDirty wTrieEnv wDirtyTrie wDB).err = none
       simp only [WriteDirty, wDirtyTrie]
       rw [h1]),
   (C7_write_dirty wTrieEnvFail wDirtyTrie wDB).2.2 .encodeFailed
     (by
       have h1 : writeDirtyNode wTrieEnvFail true ⟨[]⟩ []
           (some (TNode.leaf [1] [2] true [] [])) true =
           ⟨⟨[]⟩, [], some (.leaf [1] [2] true [] []), some .encodeFailed⟩ := by
         rw [writeDirtyNode]; rfl
       show (WriteDirty wTrieEnvFail wDirtyTrie wDB).err = some .encodeFailed
       simp only [WriteDirty, wDirtyTrie]
       rw [h1])⟩
